import Mathlib

/-!
Shallow embedding of the barnes-hut repository's published sources
(`src/main.rs`, `src/renderer.rs`, `src/utils.rs`) and a verification of the
specification's claims about them.  `f32` arithmetic is modelled over `ℝ`
(real-arithmetic idealisation of the floating-point code).  The `Body` value
type, the `Simulation` record and the node arena live in files that are not
part of the published sources; they are modelled from the spec where noted.
-/

/-- 2D vector (`ultraviolet::Vec2`), components modelled over `ℝ`. -/
structure Vec2 where
  x : ℝ
  y : ℝ

/-- `Vec2::zero()`. -/
def Vec2.zero : Vec2 := ⟨0, 0⟩

/-- Componentwise scalar multiplication `v * c` (`ultraviolet` scales each component). -/
def Vec2.smul (v : Vec2) (c : ℝ) : Vec2 := ⟨v.x * c, v.y * c⟩

/-- `Vec2::mag_sq()`: squared magnitude. -/
def Vec2.mag_sq (v : Vec2) : ℝ := v.x * v.x + v.y * v.y

/-- `Vec2::mag()`: magnitude. -/
noncomputable def Vec2.mag (v : Vec2) : ℝ := Real.sqrt v.mag_sq

noncomputable instance : DecidableEq Vec2 := fun v w =>
  decidable_of_iff (v.x = w.x ∧ v.y = w.y) (by cases v; cases w; simp)

/-- Modelled from the spec: the `Body` value type of `src/body.rs`, which is not
among the published sources.  Spec section 3 (DATA MODEL): position, velocity,
mass, radius; section 4.1: pure value type constructed from those four fields. -/
structure Body where
  pos : Vec2
  vel : Vec2
  mass : ℝ
  radius : ℝ

/-- `Body::new(pos, vel, mass, radius)` (spec section 4.1: plain construction). -/
def Body.new (pos vel : Vec2) (mass radius : ℝ) : Body := ⟨pos, vel, mass, radius⟩

/-- `std::f32::consts::TAU`. -/
noncomputable def tau : ℝ := 2 * Real.pi

/-- `f32::cbrt` on the nonnegative arguments the source applies it to. -/
noncomputable def cbrt (x : ℝ) : ℝ := Real.rpow x (1 / 3)

/-- A stream of `fastrand::f32()` outputs: every draw lies in `[0, 1)`. -/
def unitStream (s : ℕ → ℝ) : Prop := ∀ i, 0 ≤ s i ∧ s i < 1

/-- `utils.rs`: `let black_hole_density: f32 = 4e14;`. -/
def black_hole_density : ℝ := 4e14

/-- `utils.rs` (`black_hole_scenario`): `let inner_radius = 1.0;`. -/
def bhInnerRadius : ℝ := 1

/-- `utils.rs`: `let outer_radius = (n as f32).cbrt() * inner_radius * 10_000.0;`. -/
noncomputable def bhOuterRadius (n : ℕ) : ℝ := cbrt n * bhInnerRadius * 10000

/-- `utils.rs`: `let m = black_hole_density * inner_radius.powf(3.0) * PI * 4.0 / 3.0;`. -/
noncomputable def bhCenterM : ℝ := black_hole_density * Real.rpow bhInnerRadius 3 * Real.pi * 4 / 3

/-- The central body pushed first by `black_hole_scenario`:
`Body::new(Vec2::zero(), Vec2::zero(), m as f32, inner_radius)`. -/
noncomputable def bhCenter : Body := Body.new Vec2.zero Vec2.zero bhCenterM bhInnerRadius

/-- One iteration of `black_hole_scenario`'s `while bodies.len() < n` loop; the
`j`-th pushed satellite consumes draws `2*j` (angle `a`) and `2*j+1` (angle `b`). -/
noncomputable def bhSat (s : ℕ → ℝ) (n j : ℕ) : Body :=
  let a := s (2 * j) * tau
  let b := s (2 * j + 1) * Real.pi
  let pos := (Vec2.mk (Real.cos a * Real.sin b) (Real.sin a * Real.sin b)).smul (bhOuterRadius n)
  let vel := Vec2.mk (-(Real.sin a)) (Real.cos a)
  Body.new pos vel 1 (cbrt 1)

/-- The body list of `black_hole_scenario` before sorting: the central body, then
satellites appended until the length reaches `n` (so `n - 1` of them; none if `n ≤ 1`). -/
noncomputable def presortBH (s : ℕ → ℝ) (n : ℕ) : List Body :=
  bhCenter :: (List.range (n - 1)).map (bhSat s n)

/-- `utils.rs` (`uniform_disc`): `let inner_radius = 25.0;`. -/
def udInnerRadius : ℝ := 25

/-- `utils.rs`: `let outer_radius = (n as f32).sqrt() * 5.0;`. -/
noncomputable def udOuterRadius (n : ℕ) : ℝ := Real.sqrt n * 5

/-- `utils.rs` (`uniform_disc`): `let m = 1e6;`. -/
def udCenterM : ℝ := 1e6

/-- The central body pushed first by `uniform_disc`:
`Body::new(Vec2::zero(), Vec2::zero(), m as f32, inner_radius)`. -/
def udCenter : Body := Body.new Vec2.zero Vec2.zero udCenterM udInnerRadius

/-- One iteration of `uniform_disc`'s `while bodies.len() < n` loop; the `j`-th
pushed satellite consumes draws `2*j` (angle) and `2*j+1` (radial sample). -/
noncomputable def udSat (s : ℕ → ℝ) (n j : ℕ) : Body :=
  let a := s (2 * j) * tau
  let t := udInnerRadius / udOuterRadius n
  let r := s (2 * j + 1) * (1 - t * t) + t * t
  let pos := ((Vec2.mk (Real.cos a) (Real.sin a)).smul (udOuterRadius n)).smul (Real.sqrt r)
  let vel := Vec2.mk (Real.sin a) (-(Real.cos a))
  Body.new pos vel 1 (cbrt 1)

/-- The body list of `uniform_disc` before sorting. -/
noncomputable def presortUD (s : ℕ → ℝ) (n : ℕ) : List Body :=
  udCenter :: (List.range (n - 1)).map (udSat s n)

/-- `uniform_disc`: `let t = inner_radius / outer_radius;`. -/
noncomputable def udT (n : ℕ) : ℝ := udInnerRadius / udOuterRadius n

/-- `uniform_disc`: `let r = fastrand::f32() * (1.0 - t * t) + t * t;` — the
radial sample of the `j`-th satellite. -/
noncomputable def udR (s : ℕ → ℝ) (n j : ℕ) : ℝ :=
  s (2 * j + 1) * (1 - udT n * udT n) + udT n * udT n

/-- Stable insertion of a body into a list sorted by squared distance from the
origin; models one step of `bodies.sort_by(|a, b| a.pos.mag_sq().total_cmp(&b.pos.mag_sq()))`
(a stable sort, uniquely determined by the key, so insertion order is faithful). -/
noncomputable def insertByDist (b : Body) : List Body → List Body
  | [] => [b]
  | c :: cs => if b.pos.mag_sq ≤ c.pos.mag_sq then b :: c :: cs else c :: insertByDist b cs

/-- Stable sort by squared distance from the origin (see `insertByDist`). -/
noncomputable def sortByDist : List Body → List Body
  | [] => []
  | b :: bs => insertByDist b (sortByDist bs)

/-- The body of the scaling step applied to a visited body that is not at the
origin: `let v = (mass / bodies[i].pos.mag()).sqrt(); bodies[i].vel *= v;`,
where `m` is the value of the running `mass` accumulator at that index. -/
noncomputable def scaleBody (m : ℝ) (b : Body) : Body :=
  { b with vel := b.vel.smul (Real.sqrt (m / b.pos.mag)) }

/-- The velocity-scaling pass of both generators:
`for i in 0..n { mass += bodies[i].mass; if bodies[i].pos == Vec2::zero() { continue; }
let v = (mass / bodies[i].pos.mag()).sqrt(); bodies[i].vel *= v; }`.
`acc` is the running mass and the first argument of the recursion is the number
of indices still to visit (`n` at the top call). -/
noncomputable def scaleLoop (acc : ℝ) : ℕ → List Body → List Body
  | _, [] => []
  | 0, l => l
  | k + 1, b :: bs =>
    if b.pos = Vec2.zero then
      b :: scaleLoop (acc + b.mass) k bs
    else
      scaleBody (acc + b.mass) b :: scaleLoop (acc + b.mass) k bs

/-- `utils.rs::black_hole_scenario(n)`.  The function first executes
`fastrand::seed(0)`, so all draws come from `seedStream 0`, the output stream
fastrand produces from seed 0; the stream `g` that the ambient pre-call RNG
state would have produced is discarded, exactly as the reseed discards it. -/
noncomputable def black_hole_scenario (seedStream : ℕ → ℕ → ℝ) (g : ℕ → ℝ) (n : ℕ) :
    List Body :=
  scaleLoop 0 n (sortByDist (presortBH (seedStream 0) n))

/-- `utils.rs::uniform_disc(n)`; seeding is modelled as in `black_hole_scenario`. -/
noncomputable def uniform_disc (seedStream : ℕ → ℕ → ℝ) (g : ℕ → ℝ) (n : ℕ) :
    List Body :=
  scaleLoop 0 n (sortByDist (presortUD (seedStream 0) n))

/-- Sum of the masses of the first `i + 1` bodies of `l` (the running `mass`
accumulator of the scaling pass at index `i`: every body at an index `≤ i`,
i.e. no farther from the origin in the sorted order, itself included). -/
noncomputable def enclosedMass (l : List Body) (i : ℕ) : ℝ :=
  ((l.take (i + 1)).map Body.mass).sum

/-- Modelled from the spec: the `Simulation` record of `src/simulation.rs` and
the node arena of `src/quadtree.rs` are not among the published sources; only
the two fields `main.rs` reads are modelled (`simulation.bodies` and the
flattened arena `simulation.quadtree.nodes`), with the node type abstract. -/
structure Simulation (N : Type) where
  bodies : List Body
  nodes : List N

/-- The shared globals of `src/renderer.rs`: `PAUSED`, the boolean behind
`UPDATE_LOCK`, `BODIES`, `QUADTREE`, `SPAWN`. -/
structure Shared (N : Type) where
  paused : Bool
  update_flag : Bool
  bodiesBuf : List Body
  nodesBuf : List N
  spawn : List Body

/-- The presentation-side state of `renderer.rs::Renderer` that its `render`
method touches: its local `bodies` and `quadtree` buffers and `confirmed_bodies`. -/
structure RendererState (N : Type) where
  bodies : List Body
  quadtree : List N
  confirmed : Option Body

/-- `main.rs::render(simulation, fps)` under the `UPDATE_LOCK`: drain `SPAWN`
into `simulation.bodies`, then `BODIES.clear(); BODIES.extend_from_slice(&simulation.bodies)`,
then the same for `QUADTREE` from `simulation.quadtree.nodes`, then `*lock |= true`.
Returns the updated simulation and shared state. -/
def renderPublish {N : Type} (sim : Simulation N) (sh : Shared N) :
    Simulation N × Shared N :=
  let sim2 : Simulation N := { sim with bodies := sim.bodies ++ sh.spawn }
  (sim2,
    { sh with
        spawn := []
        bodiesBuf := sim2.bodies
        nodesBuf := sim2.nodes
        update_flag := sh.update_flag || true })

/-- Number of elements written into the shared buffers by `main.rs::render`:
`extend_from_slice` copies every body of the (drained) body vector into `BODIES`
and every node of the arena into `QUADTREE`, one element at a time. -/
def renderPublishWrites {N : Type} (sim : Simulation N) (sh : Shared N) : ℕ :=
  (sim.bodies.length + sh.spawn.length) + sim.nodes.length

/-- One iteration of the free-running loop spawned by `main.rs::main`:
`if renderer::PAUSED.load(..) { std::thread::yield_now(); } else { simulation.step(); }
render(&mut simulation, fps);`.  `paused` is the value polled from `PAUSED` at
the top of the iteration; the two booleans returned alongside the new state
record whether `simulation.step()` ran and whether the thread yielded. -/
def mainIter {N : Type} (step : Simulation N → Simulation N) (paused : Bool)
    (sim : Simulation N) (sh : Shared N) : (Simulation N × Shared N) × Bool × Bool :=
  if paused then (renderPublish sim sh, false, true)
  else (renderPublish (step sim) sh, true, false)

/-- `renderer.rs::Renderer::render`, the part under the `UPDATE_LOCK`
(lines 152-164): if the update flag is set, `std::mem::swap` the local buffers
with `BODIES` and `QUADTREE`; if a confirmed body exists, push it onto the local
body list and onto `SPAWN`; finally `*lock = false`. -/
def rendererFrame {N : Type} (r : RendererState N) (sh : Shared N) :
    RendererState N × Shared N :=
  let rb := if sh.update_flag then sh.bodiesBuf else r.bodies
  let sb := if sh.update_flag then r.bodies else sh.bodiesBuf
  let rq := if sh.update_flag then sh.nodesBuf else r.quadtree
  let sq := if sh.update_flag then r.quadtree else sh.nodesBuf
  match r.confirmed with
  | some b =>
      (⟨rb ++ [b], rq, none⟩,
        { sh with bodiesBuf := sb, nodesBuf := sq, spawn := sh.spawn ++ [b],
                  update_flag := false })
  | none =>
      (⟨rb, rq, none⟩,
        { sh with bodiesBuf := sb, nodesBuf := sq, update_flag := false })

/-- `main.rs::main`: `let threads = std::thread::available_parallelism().unwrap().get().max(3) - 2;`
as a function of the available hardware concurrency `p`. -/
def workerThreads (p : ℕ) : ℕ := max p 3 - 2

/-- Concrete seed-to-stream table whose every draw is `0` (used for witnesses). -/
def sfZero : ℕ → ℕ → ℝ := fun _ _ => 0

/-- Concrete ambient-RNG stream (used for witnesses). -/
def gZero : ℕ → ℝ := fun _ => 0

/-- Concrete seed-to-stream table whose every draw is `1 / 2`. -/
noncomputable def sfHalf : ℕ → ℕ → ℝ := fun _ _ => 1 / 2

/-- The single satellite of `uniform_disc` at `n = 2` under the all-halves stream. -/
noncomputable def udSatHalf : Body := udSat (sfHalf 0) 2 0

/-- A throwaway concrete body for the concurrency counterexamples. -/
def b0 : Body := Body.new Vec2.zero Vec2.zero 1 1

/-- A concrete empty shared state over the trivial node type. -/
def sh0 : Shared Unit := ⟨false, false, [], [], []⟩

/-- A concrete shared state whose update flag is set. -/
def shFlag : Shared Unit := ⟨false, true, [b0], [], []⟩

/-- A concrete presentation-side state with no confirmed body. -/
def rEmpty : RendererState Unit := ⟨[], [], none⟩

/-! ### Vector lemmas -/

theorem Vec2.mag_sq_nonneg (v : Vec2) : 0 ≤ v.mag_sq := by
  have hx := mul_self_nonneg v.x
  have hy := mul_self_nonneg v.y
  unfold Vec2.mag_sq
  linarith

theorem Vec2.mag_nonneg (v : Vec2) : 0 ≤ v.mag := Real.sqrt_nonneg _

theorem Vec2.mag_pos (v : Vec2) (hv : v ≠ Vec2.zero) : 0 < v.mag := by
  apply Real.sqrt_pos.mpr
  have hxy : v.x ≠ 0 ∨ v.y ≠ 0 := by
    by_contra h
    push_neg at h
    exact hv (by cases v; simp_all [Vec2.zero])
  have hx := mul_self_nonneg v.x
  have hy := mul_self_nonneg v.y
  unfold Vec2.mag_sq
  rcases hxy with h | h
  · have := mul_self_pos.mpr h
    linarith
  · have := mul_self_pos.mpr h
    linarith

theorem Vec2.mag_smul (v : Vec2) (c : ℝ) : (v.smul c).mag = |c| * v.mag := by
  unfold Vec2.mag Vec2.mag_sq Vec2.smul
  have h : v.x * c * (v.x * c) + v.y * c * (v.y * c)
      = c * c * (v.x * v.x + v.y * v.y) := by ring
  simp only [h]
  rw [Real.sqrt_mul (mul_self_nonneg c), Real.sqrt_mul_self_eq_abs]

theorem mag_cos_sin (a : ℝ) : (Vec2.mk (Real.cos a) (Real.sin a)).mag = 1 := by
  have h : Real.cos a * Real.cos a + Real.sin a * Real.sin a = 1 := by
    linear_combination Real.sin_sq_add_cos_sq a
  simp [Vec2.mag, Vec2.mag_sq, h]

theorem mag_neg_sin_cos (a : ℝ) : (Vec2.mk (-(Real.sin a)) (Real.cos a)).mag = 1 := by
  have h : -(Real.sin a) * -(Real.sin a) + Real.cos a * Real.cos a = 1 := by
    linear_combination Real.sin_sq_add_cos_sq a
  simp only [Vec2.mag, Vec2.mag_sq, h]
  exact Real.sqrt_one

theorem mag_sin_neg_cos (a : ℝ) : (Vec2.mk (Real.sin a) (-(Real.cos a))).mag = 1 := by
  have h : Real.sin a * Real.sin a + -(Real.cos a) * -(Real.cos a) = 1 := by
    linear_combination Real.sin_sq_add_cos_sq a
  simp only [Vec2.mag, Vec2.mag_sq, h]
  exact Real.sqrt_one

/-! ### Sorting lemmas -/

theorem insertByDist_perm (b : Body) (l : List Body) :
    List.Perm (insertByDist b l) (b :: l) := by
  induction l with
  | nil => simp [insertByDist]
  | cons c cs ih =>
    unfold insertByDist
    by_cases h : b.pos.mag_sq ≤ c.pos.mag_sq
    · rw [if_pos h]
    · rw [if_neg h]
      exact (ih.cons c).trans (List.Perm.swap b c cs)

theorem sortByDist_perm (l : List Body) : List.Perm (sortByDist l) l := by
  induction l with
  | nil => simp [sortByDist]
  | cons b bs ih =>
    exact (insertByDist_perm b (sortByDist bs)).trans (ih.cons b)

/-! ### Scaling-pass lemmas -/

theorem scaleLoop_nil (acc : ℝ) (k : ℕ) : scaleLoop acc k [] = [] := by
  cases k <;> rfl

theorem scaleLoop_zero (acc : ℝ) (l : List Body) : scaleLoop acc 0 l = l := by
  cases l <;> rfl

theorem scaleLoop_cons (acc : ℝ) (k : ℕ) (b : Body) (bs : List Body) :
    scaleLoop acc (k + 1) (b :: bs) =
      (if b.pos = Vec2.zero then b else scaleBody (acc + b.mass) b) ::
        scaleLoop (acc + b.mass) k bs := by
  by_cases h : b.pos = Vec2.zero
  · rw [if_pos h]
    show (if b.pos = Vec2.zero then _ else _) = _
    rw [if_pos h]
  · rw [if_neg h]
    show (if b.pos = Vec2.zero then _ else _) = _
    rw [if_neg h]

theorem scaleLoop_cons_skip (acc : ℝ) (k : ℕ) (b : Body) (bs : List Body)
    (h : b.pos = Vec2.zero) :
    scaleLoop acc (k + 1) (b :: bs) = b :: scaleLoop (acc + b.mass) k bs := by
  rw [scaleLoop_cons, if_pos h]

theorem scaleLoop_cons_scale (acc : ℝ) (k : ℕ) (b : Body) (bs : List Body)
    (h : ¬b.pos = Vec2.zero) :
    scaleLoop acc (k + 1) (b :: bs) =
      scaleBody (acc + b.mass) b :: scaleLoop (acc + b.mass) k bs := by
  rw [scaleLoop_cons, if_neg h]

theorem scaleLoop_length (acc : ℝ) (k : ℕ) (l : List Body) :
    (scaleLoop acc k l).length = l.length := by
  induction l generalizing acc k with
  | nil => rw [scaleLoop_nil]
  | cons b bs ih =>
    cases k with
    | zero => rw [scaleLoop_zero]
    | succ k =>
      rw [scaleLoop_cons]
      simp [ih]

theorem scaleBody_mass (m : ℝ) (b : Body) : (scaleBody m b).mass = b.mass := rfl

theorem scaleBody_pos (m : ℝ) (b : Body) : (scaleBody m b).pos = b.pos := rfl

theorem scaleBody_vel (m : ℝ) (b : Body) :
    (scaleBody m b).vel = b.vel.smul (Real.sqrt (m / b.pos.mag)) := rfl

theorem scaleLoop_map_mass (acc : ℝ) (k : ℕ) (l : List Body) :
    (scaleLoop acc k l).map Body.mass = l.map Body.mass := by
  induction l generalizing acc k with
  | nil => rw [scaleLoop_nil]
  | cons b bs ih =>
    cases k with
    | zero => rw [scaleLoop_zero]
    | succ k =>
      rw [scaleLoop_cons]
      by_cases h : b.pos = Vec2.zero <;> simp [h, ih, scaleBody_mass]

theorem enclosedMass_eq_of_map (l₁ l₂ : List Body)
    (h : l₁.map Body.mass = l₂.map Body.mass) (i : ℕ) :
    enclosedMass l₁ i = enclosedMass l₂ i := by
  unfold enclosedMass
  rw [List.map_take, List.map_take, h]

theorem get_congr_of_eq {α : Type} (l l2 : List α) (e : l = l2) (i : ℕ)
    (h1 : i < l.length) (h2 : i < l2.length) : l.get ⟨i, h1⟩ = l2.get ⟨i, h2⟩ := by
  subst e; rfl

theorem get_head_of_cons_eq {α : Type} (l : List α) (hd : α) (tl : List α)
    (e : l = hd :: tl) (h2 : 0 < l.length) : l.get ⟨0, h2⟩ = hd := by
  subst e; rfl

theorem get_tail_of_cons_eq {α : Type} (l : List α) (hd : α) (tl : List α)
    (e : l = hd :: tl) (i : ℕ) (h2 : i + 1 < l.length) (h3 : i < tl.length) :
    l.get ⟨i + 1, h2⟩ = tl.get ⟨i, h3⟩ := by
  subst e; rfl

theorem enclosedMass_cons_zero (b : Body) (bs : List Body) :
    enclosedMass (b :: bs) 0 = b.mass := by
  simp [enclosedMass]

theorem enclosedMass_cons_succ (b : Body) (bs : List Body) (i : ℕ) :
    enclosedMass (b :: bs) (i + 1) = b.mass + enclosedMass bs i := by
  simp [enclosedMass, List.take_succ_cons]

theorem scaleLoop_get_lt (l : List Body) (acc : ℝ) (k i : ℕ) (hi : i < l.length)
    (h2 : i < (scaleLoop acc k l).length) (hik : i < k) :
    (scaleLoop acc k l).get ⟨i, h2⟩ =
      (if (l.get ⟨i, hi⟩).pos = Vec2.zero then l.get ⟨i, hi⟩
       else scaleBody (acc + enclosedMass l i) (l.get ⟨i, hi⟩)) := by
  induction l generalizing acc k i with
  | nil => simp at hi
  | cons b bs ih =>
    cases k with
    | zero => omega
    | succ k =>
      cases i with
      | zero =>
        have hg : (b :: bs).get ⟨0, hi⟩ = b := rfl
        rw [hg, enclosedMass_cons_zero]
        by_cases h : b.pos = Vec2.zero
        · rw [if_pos h]
          exact get_head_of_cons_eq _ _ _ (scaleLoop_cons_skip acc k b bs h) h2
        · rw [if_neg h]
          exact get_head_of_cons_eq _ _ _ (scaleLoop_cons_scale acc k b bs h) h2
      | succ i =>
        have hi2 : i < bs.length := by simpa using hi
        have h3 : i < (scaleLoop (acc + b.mass) k bs).length := by
          rw [scaleLoop_length]; exact hi2
        have hg : (b :: bs).get ⟨i + 1, hi⟩ = bs.get ⟨i, hi2⟩ := rfl
        have hstep : (scaleLoop acc (k + 1) (b :: bs)).get ⟨i + 1, h2⟩ =
            (scaleLoop (acc + b.mass) k bs).get ⟨i, h3⟩ := by
          by_cases h : b.pos = Vec2.zero
          · exact get_tail_of_cons_eq _ _ _ (scaleLoop_cons_skip acc k b bs h) i h2 h3
          · exact get_tail_of_cons_eq _ _ _ (scaleLoop_cons_scale acc k b bs h) i h2 h3
        rw [hstep, ih (acc + b.mass) k i hi2 h3 (by omega), hg, enclosedMass_cons_succ,
          ← add_assoc]

theorem scaleLoop_get_ge (l : List Body) (acc : ℝ) (k i : ℕ) (hi : i < l.length)
    (h2 : i < (scaleLoop acc k l).length) (hik : k ≤ i) :
    (scaleLoop acc k l).get ⟨i, h2⟩ = l.get ⟨i, hi⟩ := by
  induction l generalizing acc k i with
  | nil => simp at hi
  | cons b bs ih =>
    cases k with
    | zero =>
      exact get_congr_of_eq _ _ (scaleLoop_zero acc (b :: bs)) i h2 hi
    | succ k =>
      cases i with
      | zero => omega
      | succ i =>
        have hi2 : i < bs.length := by simpa using hi
        have h3 : i < (scaleLoop (acc + b.mass) k bs).length := by
          rw [scaleLoop_length]; exact hi2
        have hg : (b :: bs).get ⟨i + 1, hi⟩ = bs.get ⟨i, hi2⟩ := rfl
        have hstep : (scaleLoop acc (k + 1) (b :: bs)).get ⟨i + 1, h2⟩ =
            (scaleLoop (acc + b.mass) k bs).get ⟨i, h3⟩ := by
          by_cases h : b.pos = Vec2.zero
          · exact get_tail_of_cons_eq _ _ _ (scaleLoop_cons_skip acc k b bs h) i h2 h3
          · exact get_tail_of_cons_eq _ _ _ (scaleLoop_cons_scale acc k b bs h) i h2 h3
        rw [hstep, ih (acc + b.mass) k i hi2 h3 (by omega), hg]

theorem scaleLoop_get_pos (l : List Body) (acc : ℝ) (k i : ℕ) (hi : i < l.length)
    (h2 : i < (scaleLoop acc k l).length) :
    ((scaleLoop acc k l).get ⟨i, h2⟩).pos = (l.get ⟨i, hi⟩).pos := by
  rcases lt_or_le i k with h | h
  · rw [scaleLoop_get_lt l acc k i hi h2 h]
    by_cases hz : (l.get ⟨i, hi⟩).pos = Vec2.zero
    · rw [if_pos hz]
    · rw [if_neg hz, scaleBody_pos]
  · rw [scaleLoop_get_ge l acc k i hi h2 h]

theorem scaleLoop_get_skip (l : List Body) (acc : ℝ) (k i : ℕ) (hi : i < l.length)
    (h2 : i < (scaleLoop acc k l).length)
    (hz : (l.get ⟨i, hi⟩).pos = Vec2.zero) :
    (scaleLoop acc k l).get ⟨i, h2⟩ = l.get ⟨i, hi⟩ := by
  rcases lt_or_le i k with h | h
  · rw [scaleLoop_get_lt l acc k i hi h2 h, if_pos hz]
  · exact scaleLoop_get_ge l acc k i hi h2 h

theorem mem_scaleLoop (acc : ℝ) (k : ℕ) (l : List Body) (b : Body)
    (hb : b ∈ scaleLoop acc k l) :
    ∃ c ∈ l, b.pos = c.pos ∧ b.mass = c.mass ∧ (c.pos = Vec2.zero → b = c) := by
  induction l generalizing acc k with
  | nil => rw [scaleLoop_nil] at hb; simp at hb
  | cons c cs ih =>
    cases k with
    | zero =>
      rw [scaleLoop_zero] at hb
      exact ⟨b, hb, rfl, rfl, fun _ => rfl⟩
    | succ k =>
      rw [scaleLoop_cons] at hb
      rcases List.mem_cons.mp hb with hhead | htail
      · by_cases h : c.pos = Vec2.zero
        · rw [if_pos h] at hhead
          exact ⟨c, List.mem_cons_self c cs, by rw [hhead], by rw [hhead], fun _ => hhead⟩
        · rw [if_neg h] at hhead
          refine ⟨c, List.mem_cons_self c cs, ?_, ?_, fun hz => absurd hz h⟩
          · rw [hhead, scaleBody_pos]
          · rw [hhead, scaleBody_mass]
      · obtain ⟨d, hd, hp, hm, hc⟩ := ih (acc + c.mass) k htail
        exact ⟨d, List.mem_cons_of_mem c hd, hp, hm, hc⟩

theorem scaleLoop_mem_of_zero (acc : ℝ) (k : ℕ) (l : List Body) (c : Body)
    (hc : c ∈ l) (hz : c.pos = Vec2.zero) : c ∈ scaleLoop acc k l := by
  induction l generalizing acc k with
  | nil => simp at hc
  | cons b bs ih =>
    cases k with
    | zero => rw [scaleLoop_zero]; exact hc
    | succ k =>
      rw [scaleLoop_cons]
      rcases List.mem_cons.mp hc with rfl | hc2
      · rw [if_pos hz]
        exact List.mem_cons_self _ _
      · exact List.mem_cons_of_mem _ (ih (acc + b.mass) k hc2)

/-! ### Generator shape lemmas -/

theorem bhCenter_pos : bhCenter.pos = Vec2.zero := rfl

theorem udCenter_pos : udCenter.pos = Vec2.zero := rfl

theorem mem_presortBH (s : ℕ → ℝ) (n : ℕ) (b : Body) (hb : b ∈ presortBH s n) :
    b = bhCenter ∨ ∃ j, j < n - 1 ∧ b = bhSat s n j := by
  unfold presortBH at hb
  rcases List.mem_cons.mp hb with rfl | hb2
  · exact Or.inl rfl
  · obtain ⟨j, hj, he⟩ := List.mem_map.mp hb2
    exact Or.inr ⟨j, List.mem_range.mp hj, he.symm⟩

theorem mem_presortUD (s : ℕ → ℝ) (n : ℕ) (b : Body) (hb : b ∈ presortUD s n) :
    b = udCenter ∨ ∃ j, j < n - 1 ∧ b = udSat s n j := by
  unfold presortUD at hb
  rcases List.mem_cons.mp hb with rfl | hb2
  · exact Or.inl rfl
  · obtain ⟨j, hj, he⟩ := List.mem_map.mp hb2
    exact Or.inr ⟨j, List.mem_range.mp hj, he.symm⟩

theorem bhSat_vel (s : ℕ → ℝ) (n j : ℕ) :
    (bhSat s n j).vel = Vec2.mk (-(Real.sin (s (2 * j) * tau))) (Real.cos (s (2 * j) * tau)) :=
  rfl

theorem udSat_vel (s : ℕ → ℝ) (n j : ℕ) :
    (udSat s n j).vel = Vec2.mk (Real.sin (s (2 * j) * tau)) (-(Real.cos (s (2 * j) * tau))) :=
  rfl

theorem bhSat_vel_mag (s : ℕ → ℝ) (n j : ℕ) : (bhSat s n j).vel.mag = 1 := by
  rw [bhSat_vel]
  exact mag_neg_sin_cos _

theorem udSat_vel_mag (s : ℕ → ℝ) (n j : ℕ) : (udSat s n j).vel.mag = 1 := by
  rw [udSat_vel]
  exact mag_sin_neg_cos _

theorem presortBH_length (s : ℕ → ℝ) (n : ℕ) : (presortBH s n).length = max 1 n := by
  unfold presortBH
  simp only [List.length_cons, List.length_map, List.length_range]
  omega

theorem presortUD_length (s : ℕ → ℝ) (n : ℕ) : (presortUD s n).length = max 1 n := by
  unfold presortUD
  simp only [List.length_cons, List.length_map, List.length_range]
  omega

theorem length_black_hole (sf : ℕ → ℕ → ℝ) (g : ℕ → ℝ) (n : ℕ) :
    (black_hole_scenario sf g n).length = max 1 n := by
  unfold black_hole_scenario
  rw [scaleLoop_length, (sortByDist_perm _).length_eq, presortBH_length]

theorem length_uniform_disc (sf : ℕ → ℕ → ℝ) (g : ℕ → ℝ) (n : ℕ) :
    (uniform_disc sf g n).length = max 1 n := by
  unfold uniform_disc
  rw [scaleLoop_length, (sortByDist_perm _).length_eq, presortUD_length]

theorem sortedBH_unit (s : ℕ → ℝ) (n : ℕ) :
    ∀ b ∈ sortByDist (presortBH s n), b.pos ≠ Vec2.zero → b.vel.mag = 1 := by
  intro b hb hpos
  have hb2 : b ∈ presortBH s n := (sortByDist_perm _).mem_iff.mp hb
  rcases mem_presortBH s n b hb2 with rfl | ⟨j, hj, rfl⟩
  · exact absurd bhCenter_pos hpos
  · exact bhSat_vel_mag s n j

theorem sortedUD_unit (s : ℕ → ℝ) (n : ℕ) :
    ∀ b ∈ sortByDist (presortUD s n), b.pos ≠ Vec2.zero → b.vel.mag = 1 := by
  intro b hb hpos
  have hb2 : b ∈ presortUD s n := (sortByDist_perm _).mem_iff.mp hb
  rcases mem_presortUD s n b hb2 with rfl | ⟨j, hj, rfl⟩
  · exact absurd udCenter_pos hpos
  · exact udSat_vel_mag s n j

theorem presortBH_zero (s : ℕ → ℝ) : presortBH s 0 = [bhCenter] := by
  unfold presortBH
  simp

theorem presortUD_zero (s : ℕ → ℝ) : presortUD s 0 = [udCenter] := by
  unfold presortUD
  simp

theorem presortBH_one (s : ℕ → ℝ) : presortBH s 1 = [bhCenter] := by
  unfold presortBH
  simp

theorem presortUD_one (s : ℕ → ℝ) : presortUD s 1 = [udCenter] := by
  unfold presortUD
  simp

theorem speed_after_scaleLoop (l : List Body) (k i : ℕ) (hi : i < l.length) (hik : i < k)
    (hunit : ∀ b ∈ l, b.pos ≠ Vec2.zero → b.vel.mag = 1)
    (h2 : i < (scaleLoop 0 k l).length)
    (hpos : ((scaleLoop 0 k l).get ⟨i, h2⟩).pos ≠ Vec2.zero) :
    ((scaleLoop 0 k l).get ⟨i, h2⟩).vel.mag =
      Real.sqrt (enclosedMass (scaleLoop 0 k l) i /
        ((scaleLoop 0 k l).get ⟨i, h2⟩).pos.mag) := by
  have hg := scaleLoop_get_lt l 0 k i hi h2 hik
  by_cases hz : (l.get ⟨i, hi⟩).pos = Vec2.zero
  · rw [hg, if_pos hz] at hpos
    exact absurd hz hpos
  · rw [hg, if_neg hz] at hpos ⊢
    rw [scaleBody_vel, scaleBody_pos, enclosedMass_eq_of_map _ _ (scaleLoop_map_mass 0 k l) i,
      Vec2.mag_smul, hunit (l.get ⟨i, hi⟩) (List.get_mem l i hi) hz, mul_one,
      abs_of_nonneg (Real.sqrt_nonneg _), zero_add]

theorem speed_sorted (pre : List Body) (n i : ℕ)
    (hunit : ∀ b ∈ sortByDist pre, b.pos ≠ Vec2.zero → b.vel.mag = 1)
    (hzero : n = 0 → ∀ b ∈ pre, b.pos = Vec2.zero)
    (hlen : pre.length = max 1 n)
    (h2 : i < (scaleLoop 0 n (sortByDist pre)).length)
    (hpos : ((scaleLoop 0 n (sortByDist pre)).get ⟨i, h2⟩).pos ≠ Vec2.zero) :
    ((scaleLoop 0 n (sortByDist pre)).get ⟨i, h2⟩).vel.mag =
      Real.sqrt (enclosedMass (scaleLoop 0 n (sortByDist pre)) i /
        ((scaleLoop 0 n (sortByDist pre)).get ⟨i, h2⟩).pos.mag) := by
  have hi : i < (sortByDist pre).length := by
    rw [← scaleLoop_length 0 n (sortByDist pre)]
    exact h2
  rcases Nat.eq_zero_or_pos n with rfl | hn
  · have heq : (scaleLoop 0 0 (sortByDist pre)).get ⟨i, h2⟩ =
        (sortByDist pre).get ⟨i, hi⟩ :=
      get_congr_of_eq _ _ (scaleLoop_zero 0 (sortByDist pre)) i h2 hi
    rw [heq] at hpos
    have hmem : (sortByDist pre).get ⟨i, hi⟩ ∈ pre :=
      (sortByDist_perm pre).mem_iff.mp (List.get_mem _ _ _)
    exact absurd (hzero rfl _ hmem) hpos
  · have hik : i < n := by
      have := (sortByDist_perm pre).length_eq
      omega
    exact speed_after_scaleLoop (sortByDist pre) n i hi hik hunit h2 hpos

/-- C4: every body returned by `black_hole_scenario(n)` or `uniform_disc(n)` whose
position is not exactly the origin has final speed `sqrt(enclosed_mass / radius)`,
where `radius` is its distance from the origin and `enclosed_mass` is the total
mass of the bodies at no larger index in the sorted output order, itself included
(the running `mass` accumulator of the scaling pass). -/
theorem enclosed_mass_speed (sf : ℕ → ℕ → ℝ) (g : ℕ → ℝ) (n : ℕ) :
    (∀ i (h2 : i < (black_hole_scenario sf g n).length),
        ((black_hole_scenario sf g n).get ⟨i, h2⟩).pos ≠ Vec2.zero →
        ((black_hole_scenario sf g n).get ⟨i, h2⟩).vel.mag =
          Real.sqrt (enclosedMass (black_hole_scenario sf g n) i /
            ((black_hole_scenario sf g n).get ⟨i, h2⟩).pos.mag)) ∧
    (∀ i (h2 : i < (uniform_disc sf g n).length),
        ((uniform_disc sf g n).get ⟨i, h2⟩).pos ≠ Vec2.zero →
        ((uniform_disc sf g n).get ⟨i, h2⟩).vel.mag =
          Real.sqrt (enclosedMass (uniform_disc sf g n) i /
            ((uniform_disc sf g n).get ⟨i, h2⟩).pos.mag)) := by
  constructor
  · intro i h2 hpos
    exact speed_sorted (presortBH (sf 0) n) n i (sortedBH_unit (sf 0) n)
      (fun hn b hb => by
        subst hn
        rw [presortBH_zero] at hb
        rw [List.mem_singleton.mp hb]
        exact bhCenter_pos)
      (presortBH_length (sf 0) n) h2 hpos
  · intro i h2 hpos
    exact speed_sorted (presortUD (sf 0) n) n i (sortedUD_unit (sf 0) n)
      (fun hn b hb => by
        subst hn
        rw [presortUD_zero] at hb
        rw [List.mem_singleton.mp hb]
        exact udCenter_pos)
      (presortUD_length (sf 0) n) h2 hpos

theorem mass_pos_mem_presortBH (s : ℕ → ℝ) (n : ℕ) (b : Body)
    (hb : b ∈ presortBH s n) : 0 < b.mass := by
  rcases mem_presortBH s n b hb with rfl | ⟨j, hj, rfl⟩
  · show 0 < bhCenterM
    unfold bhCenterM black_hole_density bhInnerRadius
    have h1 : Real.rpow 1 3 = 1 := Real.one_rpow 3
    rw [h1]
    have hπ := Real.pi_pos
    positivity
  · show (0 : ℝ) < 1
    norm_num

theorem mass_pos_mem_presortUD (s : ℕ → ℝ) (n : ℕ) (b : Body)
    (hb : b ∈ presortUD s n) : 0 < b.mass := by
  rcases mem_presortUD s n b hb with rfl | ⟨j, hj, rfl⟩
  · show 0 < udCenterM
    unfold udCenterM
    norm_num
  · show (0 : ℝ) < 1
    norm_num

/-- C6: every body in the sequence returned by `black_hole_scenario(n)` or
`uniform_disc(n)` has strictly positive mass. -/
theorem scenario_mass_pos (sf : ℕ → ℕ → ℝ) (g : ℕ → ℝ) (n : ℕ) (b : Body) :
    (b ∈ black_hole_scenario sf g n → 0 < b.mass) ∧
    (b ∈ uniform_disc sf g n → 0 < b.mass) := by
  constructor
  · intro hb
    obtain ⟨c, hc, _, hm, _⟩ := mem_scaleLoop 0 n (sortByDist (presortBH (sf 0) n)) b hb
    rw [hm]
    exact mass_pos_mem_presortBH (sf 0) n c ((sortByDist_perm _).mem_iff.mp hc)
  · intro hb
    obtain ⟨c, hc, _, hm, _⟩ := mem_scaleLoop 0 n (sortByDist (presortUD (sf 0) n)) b hb
    rw [hm]
    exact mass_pos_mem_presortUD (sf 0) n c ((sortByDist_perm _).mem_iff.mp hc)

/-- C8: both generators are deterministic: the reseed (`fastrand::seed(0)`) makes
the result independent of the ambient RNG stream, so two separate calls with the
same `n` return element-wise identical body sequences. -/
theorem generators_deterministic (sf : ℕ → ℕ → ℝ) (g₁ g₂ : ℕ → ℝ) (n : ℕ) :
    black_hole_scenario sf g₁ n = black_hole_scenario sf g₂ n ∧
      uniform_disc sf g₁ n = uniform_disc sf g₂ n :=
  ⟨rfl, rfl⟩

/-- C9: `black_hole_scenario(n)` and `uniform_disc(n)` return `n` bodies when
`n ≥ 1` and a single body (the centre alone) when `n = 0` — i.e. `max 1 n`
bodies — and hence never an empty sequence. -/
theorem scenario_lengths (sf : ℕ → ℕ → ℝ) (g : ℕ → ℝ) (n : ℕ) :
    (black_hole_scenario sf g n).length = max 1 n ∧
      (uniform_disc sf g n).length = max 1 n :=
  ⟨length_black_hole sf g n, length_uniform_disc sf g n⟩

/-- C10: in the velocity-scaling pass of both generators a body whose position is
exactly the origin is skipped (returned unchanged from its sorted state, so the
central body keeps its zero velocity and is a member of the returned list), and
every body the pass does scale has strictly positive distance from the origin,
so the divisor `pos.mag()` is never zero. -/
theorem origin_bodies_skipped (sf : ℕ → ℕ → ℝ) (g : ℕ → ℝ) (n : ℕ) :
    (∀ i (h2 : i < (black_hole_scenario sf g n).length)
        (hs : i < (sortByDist (presortBH (sf 0) n)).length),
        ((sortByDist (presortBH (sf 0) n)).get ⟨i, hs⟩).pos = Vec2.zero →
        (black_hole_scenario sf g n).get ⟨i, h2⟩ =
          (sortByDist (presortBH (sf 0) n)).get ⟨i, hs⟩) ∧
    bhCenter ∈ black_hole_scenario sf g n ∧
    (∀ b ∈ sortByDist (presortBH (sf 0) n), b.pos ≠ Vec2.zero → 0 < b.pos.mag) ∧
    (∀ i (h2 : i < (uniform_disc sf g n).length)
        (hs : i < (sortByDist (presortUD (sf 0) n)).length),
        ((sortByDist (presortUD (sf 0) n)).get ⟨i, hs⟩).pos = Vec2.zero →
        (uniform_disc sf g n).get ⟨i, h2⟩ =
          (sortByDist (presortUD (sf 0) n)).get ⟨i, hs⟩) ∧
    udCenter ∈ uniform_disc sf g n ∧
    (∀ b ∈ sortByDist (presortUD (sf 0) n), b.pos ≠ Vec2.zero → 0 < b.pos.mag) := by
  refine ⟨?_, ?_, ?_, ?_, ?_, ?_⟩
  · intro i h2 hs hz
    exact scaleLoop_get_skip _ 0 n i hs h2 hz
  · exact scaleLoop_mem_of_zero 0 n _ bhCenter
      ((sortByDist_perm _).mem_iff.mpr (List.mem_cons_self _ _)) bhCenter_pos
  · intro b _ hpos
    exact Vec2.mag_pos _ hpos
  · intro i h2 hs hz
    exact scaleLoop_get_skip _ 0 n i hs h2 hz
  · exact scaleLoop_mem_of_zero 0 n _ udCenter
      ((sortByDist_perm _).mem_iff.mpr (List.mem_cons_self _ _)) udCenter_pos
  · intro b _ hpos
    exact Vec2.mag_pos _ hpos

theorem Vec2.mag_zero : Vec2.zero.mag = 0 := by
  simp [Vec2.mag, Vec2.mag_sq, Vec2.zero]

theorem udOuterRadius_nonneg (n : ℕ) : 0 ≤ udOuterRadius n := by
  unfold udOuterRadius
  have h := Real.sqrt_nonneg (n : ℝ)
  linarith

theorem udOuterRadius_pos (n : ℕ) (hn : 1 ≤ n) : 0 < udOuterRadius n := by
  unfold udOuterRadius
  have h : (0 : ℝ) < n := by exact_mod_cast hn
  have h1 : 0 < Real.sqrt n := Real.sqrt_pos.mpr h
  linarith

theorem udSat_pos (s : ℕ → ℝ) (n j : ℕ) :
    (udSat s n j).pos =
      ((Vec2.mk (Real.cos (s (2 * j) * tau)) (Real.sin (s (2 * j) * tau))).smul
        (udOuterRadius n)).smul (Real.sqrt (udR s n j)) := rfl

theorem udSat_pos_mag (s : ℕ → ℝ) (n j : ℕ) :
    (udSat s n j).pos.mag = udOuterRadius n * Real.sqrt (udR s n j) := by
  rw [udSat_pos, Vec2.mag_smul, Vec2.mag_smul, mag_cos_sin, mul_one,
    abs_of_nonneg (Real.sqrt_nonneg _), abs_of_nonneg (udOuterRadius_nonneg n)]
  ring

theorem udSat_dist_bounds (s : ℕ → ℝ) (n j : ℕ) (hn : 1 ≤ n) (hs : unitStream s) :
    (min udInnerRadius (udOuterRadius n) ≤ (udSat s n j).pos.mag ∧
      (udSat s n j).pos.mag ≤ max udInnerRadius (udOuterRadius n)) ∧
    0 < (udSat s n j).pos.mag := by
  obtain ⟨hu0, hu1⟩ := hs (2 * j + 1)
  have hop : 0 < udOuterRadius n := udOuterRadius_pos n hn
  have htp : 0 < udT n := div_pos (by norm_num [udInnerRadius]) hop
  have htO : udOuterRadius n * udT n = udInnerRadius := by
    unfold udT
    field_simp
  have hmag := udSat_pos_mag s n j
  have hrval : udR s n j =
      s (2 * j + 1) * (1 - udT n * udT n) + udT n * udT n := rfl
  rcases le_total (udT n * udT n) 1 with hc | hc
  · have hq1 : 0 ≤ s (2 * j + 1) * (1 - udT n * udT n) :=
      mul_nonneg hu0 (sub_nonneg.mpr hc)
    have hq2 : s (2 * j + 1) * (1 - udT n * udT n) ≤ 1 - udT n * udT n :=
      mul_le_of_le_one_left (sub_nonneg.mpr hc) hu1.le
    have hrlow : udT n * udT n ≤ udR s n j := by rw [hrval]; linarith
    have hrhigh : udR s n j ≤ 1 := by rw [hrval]; linarith
    have h1 : udT n ≤ Real.sqrt (udR s n j) := by
      have h3 := Real.sqrt_le_sqrt hrlow
      rwa [Real.sqrt_mul_self htp.le] at h3
    have h2 : Real.sqrt (udR s n j) ≤ 1 := by
      have h3 := Real.sqrt_le_sqrt hrhigh
      rwa [Real.sqrt_one] at h3
    have hd1 : udInnerRadius ≤ (udSat s n j).pos.mag := by
      rw [hmag, ← htO]
      exact mul_le_mul_of_nonneg_left h1 hop.le
    have hd2 : (udSat s n j).pos.mag ≤ udOuterRadius n := by
      rw [hmag]
      have h4 := mul_le_mul_of_nonneg_left h2 hop.le
      rwa [mul_one] at h4
    have hin : (0 : ℝ) < udInnerRadius := by norm_num [udInnerRadius]
    exact ⟨⟨le_trans (min_le_left _ _) hd1, le_trans hd2 (le_max_right _ _)⟩,
      by linarith⟩
  · have hq1 : 0 ≤ (1 - s (2 * j + 1)) * (udT n * udT n - 1) :=
      mul_nonneg (by linarith) (by linarith)
    have hq2 : s (2 * j + 1) * (1 - udT n * udT n) ≤ 0 := by nlinarith
    have hrlow : 1 ≤ udR s n j := by rw [hrval]; nlinarith
    have hrhigh : udR s n j ≤ udT n * udT n := by rw [hrval]; linarith
    have h1 : 1 ≤ Real.sqrt (udR s n j) := by
      have h3 := Real.sqrt_le_sqrt hrlow
      rwa [Real.sqrt_one] at h3
    have h2 : Real.sqrt (udR s n j) ≤ udT n := by
      have h3 := Real.sqrt_le_sqrt hrhigh
      rwa [Real.sqrt_mul_self htp.le] at h3
    have hd1 : udOuterRadius n ≤ (udSat s n j).pos.mag := by
      rw [hmag]
      have h4 := mul_le_mul_of_nonneg_left h1 hop.le
      rwa [mul_one] at h4
    have hd2 : (udSat s n j).pos.mag ≤ udInnerRadius := by
      rw [hmag, ← htO]
      exact mul_le_mul_of_nonneg_left h2 hop.le
    exact ⟨⟨le_trans (min_le_right _ _) hd1, le_trans hd2 (le_max_left _ _)⟩,
      by linarith⟩

/-- C5 (amended): for `n ≥ 1` and draws in `[0,1)`, `uniform_disc(n)` returns the
central body of mass 1e6 at the exact origin (and nothing else sits at the
origin), and every other body's distance from the origin lies between
`min(25, sqrt(n)*5)` and `max(25, sqrt(n)*5)` — between the inner and outer
radius when `n ≥ 25` so that the outer radius is the larger of the two, and
between the outer and inner radius otherwise. -/
theorem uniform_disc_geometry (sf : ℕ → ℕ → ℝ) (g : ℕ → ℝ) (n : ℕ)
    (hn : 1 ≤ n) (hs : unitStream (sf 0)) :
    udCenter ∈ uniform_disc sf g n ∧
    (∀ b ∈ uniform_disc sf g n, b.pos = Vec2.zero → b = udCenter) ∧
    (∀ b ∈ uniform_disc sf g n, b.pos ≠ Vec2.zero →
      min udInnerRadius (udOuterRadius n) ≤ b.pos.mag ∧
        b.pos.mag ≤ max udInnerRadius (udOuterRadius n)) := by
  refine ⟨?_, ?_, ?_⟩
  · exact scaleLoop_mem_of_zero 0 n _ udCenter
      ((sortByDist_perm _).mem_iff.mpr (List.mem_cons_self _ _)) udCenter_pos
  · intro b hb hz
    obtain ⟨c, hc, hp, _, hcz⟩ := mem_scaleLoop 0 n (sortByDist (presortUD (sf 0) n)) b hb
    have hc2 := (sortByDist_perm _).mem_iff.mp hc
    rcases mem_presortUD (sf 0) n c hc2 with rfl | ⟨j, hj, rfl⟩
    · exact hcz udCenter_pos
    · exfalso
      have h3 := (udSat_dist_bounds (sf 0) n j hn hs).2
      rw [← hp, hz, Vec2.mag_zero] at h3
      exact lt_irrefl 0 h3
  · intro b hb hpos
    obtain ⟨c, hc, hp, _, _⟩ := mem_scaleLoop 0 n (sortByDist (presortUD (sf 0) n)) b hb
    have hc2 := (sortByDist_perm _).mem_iff.mp hc
    rcases mem_presortUD (sf 0) n c hc2 with rfl | ⟨j, hj, rfl⟩
    · rw [udCenter_pos] at hp
      exact absurd hp hpos
    · rw [hp]
      exact (udSat_dist_bounds (sf 0) n j hn hs).1

/-! ### Concrete instances for witnesses and counterexamples -/

theorem unitStream_sfZero : unitStream (sfZero 0) := fun _ => ⟨le_refl 0, zero_lt_one⟩

theorem unitStream_sfHalf : unitStream (sfHalf 0) := fun _ => by
  constructor <;> norm_num [sfHalf]

theorem presortUD_half_two : presortUD (sfHalf 0) 2 = [udCenter, udSatHalf] := by
  unfold presortUD udSatHalf
  simp [List.range_succ]

theorem sorted_half_two :
    sortByDist (presortUD (sfHalf 0) 2) = [udCenter, udSatHalf] := by
  have hc : udCenter.pos.mag_sq ≤ udSatHalf.pos.mag_sq := by
    have h0 : udCenter.pos.mag_sq = 0 := by
      norm_num [udCenter, Body.new, Vec2.zero, Vec2.mag_sq]
    rw [h0]
    exact Vec2.mag_sq_nonneg _
  rw [presortUD_half_two]
  show insertByDist udCenter [udSatHalf] = _
  show (if udCenter.pos.mag_sq ≤ udSatHalf.pos.mag_sq then
      udCenter :: udSatHalf :: [] else udSatHalf :: insertByDist udCenter []) = _
  rw [if_pos hc]

theorem ud_half_len : 1 < (uniform_disc sfHalf gZero 2).length := by
  rw [length_uniform_disc]
  norm_num

theorem sorted_half_len : 1 < (sortByDist (presortUD (sfHalf 0) 2)).length := by
  rw [sorted_half_two]
  norm_num

theorem ud_half_get_one_pos :
    ((uniform_disc sfHalf gZero 2).get ⟨1, ud_half_len⟩).pos = udSatHalf.pos := by
  have hb : (sortByDist (presortUD (sfHalf 0) 2)).get ⟨1, sorted_half_len⟩
      = udSatHalf := by
    rw [get_tail_of_cons_eq _ udCenter [udSatHalf] sorted_half_two 0 sorted_half_len
      (by norm_num)]
    rfl
  exact (scaleLoop_get_pos (sortByDist (presortUD (sfHalf 0) 2)) 0 2 1 sorted_half_len
    ud_half_len).trans (congrArg Body.pos hb)

theorem udT_two_sq : udT 2 * udT 2 = 12.5 := by
  unfold udT udOuterRadius udInnerRadius
  have h2 : Real.sqrt ((2 : ℕ) : ℝ) = Real.sqrt 2 := by norm_num
  rw [h2]
  have hm : Real.sqrt 2 * Real.sqrt 2 = 2 := Real.mul_self_sqrt (by norm_num)
  have hstep : 25 / (Real.sqrt 2 * 5) * (25 / (Real.sqrt 2 * 5))
      = 625 / (Real.sqrt 2 * Real.sqrt 2 * 25) := by ring
  rw [hstep, hm]
  norm_num

theorem udR_half_two : udR (sfHalf 0) 2 0 = 6.75 := by
  unfold udR sfHalf
  rw [udT_two_sq]
  norm_num

theorem udSatHalf_mag : udSatHalf.pos.mag = udOuterRadius 2 * Real.sqrt 6.75 := by
  unfold udSatHalf
  rw [udSat_pos_mag, udR_half_two]

theorem udSatHalf_mag_gt : udOuterRadius 2 < udSatHalf.pos.mag := by
  rw [udSatHalf_mag]
  have h1 : 1 < Real.sqrt 6.75 := by
    have h3 := Real.sqrt_lt_sqrt (by norm_num : (0:ℝ) ≤ 1) (by norm_num : (1:ℝ) < 6.75)
    rwa [Real.sqrt_one] at h3
  have h2 : 0 < udOuterRadius 2 := udOuterRadius_pos 2 (by norm_num)
  nlinarith

theorem ud_half_get_one_ne :
    ((uniform_disc sfHalf gZero 2).get ⟨1, ud_half_len⟩).pos ≠ Vec2.zero := by
  intro hz
  have h := udSatHalf_mag_gt
  rw [← ud_half_get_one_pos, hz, Vec2.mag_zero] at h
  exact absurd h (not_lt.mpr (udOuterRadius_nonneg 2))

/-- C5 counterexample: at `n = 2` with every draw `1/2` (a legal `fastrand::f32`
output stream) the single satellite sits at distance `sqrt(2)*5*sqrt(6.75) ≈ 18.4`
from the origin, strictly greater than the configured outer radius
`sqrt(2)*5 ≈ 7.07`, so "distance between the inner radius 25.0 and the outer
radius sqrt(n)*5.0" is false as stated (for every n with 2 ≤ n < 25 the outer
radius is smaller than the inner radius and the satellites land outside it). -/
theorem uniform_disc_radius_counterexample :
    ¬ (∀ (sf : ℕ → ℕ → ℝ) (g : ℕ → ℝ) (n : ℕ), 1 ≤ n → unitStream (sf 0) →
        udCenter ∈ uniform_disc sf g n ∧
        (∀ b ∈ uniform_disc sf g n, b.pos = Vec2.zero → b = udCenter) ∧
        (∀ b ∈ uniform_disc sf g n, b.pos ≠ Vec2.zero →
          udInnerRadius ≤ b.pos.mag ∧ b.pos.mag ≤ udOuterRadius n)) := by
  intro h
  obtain ⟨-, -, hd⟩ := h sfHalf gZero 2 (by norm_num) unitStream_sfHalf
  have hmem := List.get_mem (uniform_disc sfHalf gZero 2) 1 ud_half_len
  have hb := hd _ hmem ud_half_get_one_ne
  have h2 := hb.2
  rw [ud_half_get_one_pos] at h2
  exact absurd h2 (not_le.mpr udSatHalf_mag_gt)

/-- Witness for C4 at `n = 2` under the all-halves seed-0 stream: the satellite
(index 1 of the returned list) is off-origin and its final speed equals
`sqrt(enclosed_mass / distance)`. -/
theorem enclosed_mass_speed_witness :
    ((uniform_disc sfHalf gZero 2).get ⟨1, ud_half_len⟩).pos ≠ Vec2.zero ∧
    ((uniform_disc sfHalf gZero 2).get ⟨1, ud_half_len⟩).vel.mag =
      Real.sqrt (enclosedMass (uniform_disc sfHalf gZero 2) 1 /
        ((uniform_disc sfHalf gZero 2).get ⟨1, ud_half_len⟩).pos.mag) :=
  ⟨ud_half_get_one_ne,
   (enclosed_mass_speed sfHalf gZero 2).2 1 ud_half_len ud_half_get_one_ne⟩

/-- Witness for the amended C5 at `n = 1` with the all-zeros seed-0 stream. -/
theorem uniform_disc_geometry_witness :
    1 ≤ 1 ∧ unitStream (sfZero 0) ∧ udCenter ∈ uniform_disc sfZero gZero 1 :=
  ⟨le_refl 1, unitStream_sfZero,
   (uniform_disc_geometry sfZero gZero 1 (le_refl 1) unitStream_sfZero).1⟩

theorem black_hole_zero (sf : ℕ → ℕ → ℝ) (g : ℕ → ℝ) :
    black_hole_scenario sf g 0 = [bhCenter] := by
  show scaleLoop 0 0 (sortByDist (presortBH (sf 0) 0)) = [bhCenter]
  rw [scaleLoop_zero, presortBH_zero]
  rfl

theorem bhCenter_mem_zero : bhCenter ∈ black_hole_scenario sfZero gZero 0 := by
  rw [black_hole_zero]
  exact List.mem_singleton_self bhCenter

/-- Witness for C6 at `n = 0` (black-hole generator): the centre is a member of
the returned list and has positive mass. -/
theorem scenario_mass_pos_witness :
    bhCenter ∈ black_hole_scenario sfZero gZero 0 ∧ 0 < bhCenter.mass :=
  ⟨bhCenter_mem_zero, (scenario_mass_pos sfZero gZero 0 bhCenter).1 bhCenter_mem_zero⟩

theorem sortedBH_zero (s : ℕ → ℝ) : sortByDist (presortBH s 0) = [bhCenter] := by
  rw [presortBH_zero]
  rfl

theorem bh_zero_len : 0 < (black_hole_scenario sfZero gZero 0).length := by
  rw [length_black_hole]
  norm_num

theorem sortedBH_zero_len : 0 < (sortByDist (presortBH (sfZero 0) 0)).length := by
  rw [sortedBH_zero]
  norm_num

theorem sortedBH_zero_get_pos :
    ((sortByDist (presortBH (sfZero 0) 0)).get ⟨0, sortedBH_zero_len⟩).pos
      = Vec2.zero := by
  rw [get_head_of_cons_eq _ bhCenter [] (sortedBH_zero (sfZero 0)) sortedBH_zero_len]
  rfl

/-- Witness for C10 at `n = 0`: the origin body at index 0 is returned unchanged
from its sorted state, and the central body is a member of the returned list. -/
theorem origin_bodies_skipped_witness :
    (black_hole_scenario sfZero gZero 0).get ⟨0, bh_zero_len⟩ =
      (sortByDist (presortBH (sfZero 0) 0)).get ⟨0, sortedBH_zero_len⟩ ∧
    bhCenter ∈ black_hole_scenario sfZero gZero 0 :=
  ⟨(origin_bodies_skipped sfZero gZero 0).1 0 bh_zero_len sortedBH_zero_len
      sortedBH_zero_get_pos,
   (origin_bodies_skipped sfZero gZero 0).2.1⟩

/-! ### Hand-off, loop and pool-sizing claims -/

/-- C1 counterexample: the number of elements `main.rs::render` writes into the
shared buffers grows with the body count — with `[b0]` it writes 1 element and
with `[b0, b0]` it writes 2 — so the publish step's cost is not O(1) independent
of body count and is a per-element copy (`clear` + `extend_from_slice`), not a
swap. -/
theorem publish_cost_not_constant :
    ¬ (∀ (simA simB : Simulation Unit) (shA shB : Shared Unit),
        renderPublishWrites simA shA = renderPublishWrites simB shB) := by
  intro h
  have hc := h ⟨[b0], []⟩ ⟨[b0, b0], []⟩ sh0 sh0
  simp [renderPublishWrites, sh0] at hc

/-- C1 (amended): after each full step `main.rs::render` publishes under the
update flag by copying the drained body list and the node arena element-wise
into the shared buffers (`clear` + `extend_from_slice` — one write per body and
per node, so cost proportional to the body count, not O(1)) and sets the flag;
the presentation side (`renderer.rs::render`), under the flag, obtains the
snapshot by `std::mem::swap` — a constant-time whole-buffer exchange — and
clears the flag, never writing the shared snapshot buffers element by element. -/
theorem publish_handoff (N : Type) (sim : Simulation N) (sh : Shared N)
    (r : RendererState N) :
    ((renderPublish sim sh).2.bodiesBuf = sim.bodies ++ sh.spawn ∧
     (renderPublish sim sh).2.nodesBuf = sim.nodes ∧
     (renderPublish sim sh).2.update_flag = true ∧
     renderPublishWrites sim sh = (sim.bodies ++ sh.spawn).length + sim.nodes.length) ∧
    (sh.update_flag = true → r.confirmed = none →
      (rendererFrame r sh).1.bodies = sh.bodiesBuf ∧
      (rendererFrame r sh).2.bodiesBuf = r.bodies ∧
      (rendererFrame r sh).1.quadtree = sh.nodesBuf ∧
      (rendererFrame r sh).2.nodesBuf = r.quadtree ∧
      (rendererFrame r sh).2.update_flag = false) := by
  constructor
  · refine ⟨rfl, rfl, ?_, ?_⟩
    · simp [renderPublish]
    · simp [renderPublishWrites]
  · intro hf hc
    simp [rendererFrame, hf, hc]

/-- Witness for the amended C1: a concrete flagged shared state is swapped, not
copied, by the presentation side, and the flag is cleared. -/
theorem publish_handoff_witness :
    shFlag.update_flag = true ∧ rEmpty.confirmed = none ∧
    (rendererFrame rEmpty shFlag).1.bodies = shFlag.bodiesBuf ∧
    (rendererFrame rEmpty shFlag).2.bodiesBuf = rEmpty.bodies ∧
    (rendererFrame rEmpty shFlag).2.update_flag = false :=
  ⟨rfl, rfl,
   ((publish_handoff Unit ⟨[], []⟩ shFlag rEmpty).2 rfl rfl).1,
   ((publish_handoff Unit ⟨[], []⟩ shFlag rEmpty).2 rfl rfl).2.1,
   ((publish_handoff Unit ⟨[], []⟩ shFlag rEmpty).2 rfl rfl).2.2.2.2⟩

/-- C2: the pause flag is polled at the top of every loop iteration (`mainIter`
branches on the polled value before anything else); while it is set,
`simulation.step()` is not invoked and the thread yields instead, and on the
first iteration with the flag cleared the step runs again. -/
theorem pause_poll_step_skip (N : Type) (step : Simulation N → Simulation N)
    (paused : Bool) (sim : Simulation N) (sh : Shared N) :
    (paused = true →
      (mainIter step paused sim sh).2.1 = false ∧
      (mainIter step paused sim sh).2.2 = true ∧
      (mainIter step paused sim sh).1 = renderPublish sim sh) ∧
    (paused = false →
      (mainIter step paused sim sh).2.1 = true ∧
      (mainIter step paused sim sh).2.2 = false ∧
      (mainIter step paused sim sh).1 = renderPublish (step sim) sh) := by
  cases paused <;> simp [mainIter]

/-- Witness for C2: a concrete paused iteration does not step and yields. -/
theorem pause_poll_step_skip_witness :
    (mainIter (fun s : Simulation Unit => s) true ⟨[], []⟩ sh0).2.1 = false ∧
    (mainIter (fun s : Simulation Unit => s) true ⟨[], []⟩ sh0).2.2 = true ∧
    (mainIter (fun s : Simulation Unit => s) true ⟨[], []⟩ sh0).1 =
      renderPublish ⟨[], []⟩ sh0 :=
  (pause_poll_step_skip Unit (fun s => s) true ⟨[], []⟩ sh0).1 rfl

/-- C3: `main.rs::render` drains the spawn queue by appending it, in queue
order, to `simulation.bodies`; the drain leaves the queue empty and the
previously existing bodies unchanged, and within every loop iteration the drain
runs after the current step, hence before the next iteration's step (and so
before the next tree rebuild). -/
theorem spawn_drain_append (N : Type) (step : Simulation N → Simulation N)
    (paused : Bool) (sim : Simulation N) (sh : Shared N) :
    (renderPublish sim sh).1.bodies = sim.bodies ++ sh.spawn ∧
    (renderPublish sim sh).2.spawn = [] ∧
    (renderPublish sim sh).1.bodies.take sim.bodies.length = sim.bodies ∧
    (mainIter step paused sim sh).1.1.bodies =
      (if paused then sim else step sim).bodies ++ sh.spawn ∧
    (mainIter step paused sim sh).1.2.spawn = [] := by
  refine ⟨rfl, rfl, ?_, ?_, ?_⟩
  · show (sim.bodies ++ sh.spawn).take sim.bodies.length = sim.bodies
    exact List.take_left sim.bodies sh.spawn
  · cases paused <;> simp [mainIter, renderPublish]
  · cases paused <;> simp [mainIter, renderPublish]

/-- C7: the worker pool size `available_parallelism().max(3) - 2` equals the
available concurrency minus a reserve of two threads whenever at least three
are available, and is never smaller than one worker. -/
theorem worker_pool_size (p : ℕ) :
    (3 ≤ p → workerThreads p = p - 2) ∧ 1 ≤ workerThreads p := by
  unfold workerThreads
  omega

/-- Witness for C7 at `p = 8`. -/
theorem worker_pool_size_witness :
    3 ≤ 8 ∧ workerThreads 8 = 8 - 2 ∧ 1 ≤ workerThreads 8 :=
  ⟨by norm_num, (worker_pool_size 8).1 (by norm_num), (worker_pool_size 8).2⟩
